import Mathlib

/-!
Shallow embedding of the goriffa RIFF codec (reader, writer, byte-accounting
primitives, WAVE format codec) and proofs of the specification claims.

Transports are modelled as explicit step functions:
a reader transport is a function from an inner state and a requested byte
count to a new state, the delivered bytes and an optional error, mirroring
the contract of a Go io.Reader (a read may deliver fewer bytes than
requested, with or without an error).  Errors are modelled as a closed
inductive type; the sentinel-matching predicates (isCorrupted, isEOF)
mirror errors.Is against the corresponding sentinel values.
-/

namespace Goriffa

/-- Error model.  Each constructor corresponds to a distinct error value of
the source; transportE stands for an arbitrary opaque transport error. -/
inductive Err where
  | eofE
  | underflowE
  | shortWriteE
  | corruptTooShort
  | corruptOutOfBounds
  | corruptBadTag
  | corruptSmallSize
  | corruptOverflow
  | closedE
  | badWave
  | inconsistentBPS
  | inconsistentBA
  | invalidBitRate
  | invalidChannels
  | invalidSampleRate
  | outOfFuel
  | transportE (k : Nat)
deriving DecidableEq, Repr

/-- errors.Is(e, goriffa.ErrCorrupted): the corrupt* errors wrap ErrCorrupted
directly; the wave errors wrap ErrBadWaveData which wraps ErrCorrupted. -/
def Err.isCorrupted : Err → Bool
  | .corruptTooShort | .corruptOutOfBounds | .corruptBadTag
  | .corruptSmallSize | .corruptOverflow
  | .badWave | .inconsistentBPS | .inconsistentBA
  | .invalidBitRate | .invalidChannels | .invalidSampleRate => true
  | _ => false

/-- errors.Is(e, io.EOF). -/
def Err.isEOF : Err → Bool
  | .eofE => true
  | _ => false

/-- Bytes are modelled as natural numbers (values below 256 in well-formed
streams); a buffer is a list of bytes. -/
def zeros (n : Nat) : List Nat := List.replicate n 0

/-- A Go read into a zeroed buffer of length len that delivered got: the
buffer holds the delivered prefix and stays zero past it. -/
def fill (len : Nat) (got : List Nat) : List Nat :=
  got.take len ++ zeros (len - got.length)

/-- binary.LittleEndian.Uint32 over the first four bytes. -/
def leU32 (b : List Nat) : Nat :=
  b.getD 0 0 + 256 * b.getD 1 0 + 65536 * b.getD 2 0 + 16777216 * b.getD 3 0

/-- binary.LittleEndian.Uint16 over the first two bytes. -/
def leU16 (b : List Nat) : Nat := b.getD 0 0 + 256 * b.getD 1 0

/-- internal.LittleEndianUInt32Bytes. -/
def le32 (u : Nat) : List Nat :=
  [u % 256, u / 256 % 256, u / 65536 % 256, u / 16777216 % 256]

/-- internal.LittleEndianUInt16Bytes. -/
def le16 (u : Nat) : List Nat := [u % 256, u / 256 % 256]

/-- internal.PaddedLength restricted to nonnegative arguments (round up to
the next multiple of the two-byte word). -/
def paddedLenN (n : Nat) : Nat := if n % 2 = 0 then n else n + 1

/-- internal.Pad: append one zero byte when the length is odd. -/
def padList (b : List Nat) : List Nat :=
  if b.length % 2 = 0 then b else b ++ [0]

/-- Go int64 two's-complement wrap of an integer value. -/
def i64 (x : Int) : Int := (x + 2 ^ 63) % 2 ^ 64 - 2 ^ 63

/-- Go conversion int64 -> uint32 (low 32 bits). -/
def u32cast (x : Int) : Nat := (x % 2 ^ 32).toNat

/-- internal.Chunk: a FOURCC identifier and the chunk payload. -/
structure Chunk where
  identifier : List Nat
  data : List Nat
deriving DecidableEq, Repr

/-- internal.PaddedLength on an int64 argument, with Go wrap on the
addition (callers only pass nonnegative lengths). -/
def i64padded (n : Int) : Int :=
  if n % 2 = 0 then n else i64 (n + (2 - n % 2))

/-- Chunk.ByteLength: 8 + PaddedLength(int64(len(Data))), in int64
arithmetic. -/
def byteLength (c : Chunk) : Int :=
  i64 (8 + i64padded (c.data.length : Int))

/-- Mathematical (non-wrapping) on-wire length of a chunk: header plus
padded payload. -/
def chunkWireLen (c : Chunk) : Nat := 8 + paddedLenN c.data.length

/-- The FOURCC RIFF tag bytes. -/
def riffTag : List Nat := [82, 73, 70, 70]

/-- The fmt-space FOURCC tag bytes of the WAVE format chunk. -/
def fmtTag : List Nat := [102, 109, 116, 32]

/-- The data FOURCC tag bytes. -/
def dataTag : List Nat := [100, 97, 116, 97]

/-- The WAVE file-type tag bytes. -/
def waveTag : List Nat := [87, 65, 86, 69]

section Reader

variable {τ : Type}

/-- A reader transport: one Read call takes the inner state and the
requested length and yields the new state, the delivered bytes and an
optional error. -/
abbrev ReadFn (τ : Type) := τ → Nat → τ × List Nat × Option Err

/-- A transport obeys the io.Reader contract when it never delivers more
bytes than requested. -/
def ReadOk (rd : ReadFn τ) : Prop :=
  ∀ t k, ((rd t k).2.1).length ≤ k

/-- reader.Reader session state: parsed file type, declared size and the
cumulative consumption counter bytesRead. -/
structure RdState (τ : Type) where
  fileType : List Nat
  size : Nat
  bytesRead : Int
  inner : τ
deriving DecidableEq, Repr

/-- Reader.read: one transport read that advances bytesRead and then
checks the consumption counter against PaddedLength(size). -/
def rread (rd : ReadFn τ) (r : RdState τ) (len : Nat) :
    RdState τ × List Nat × Nat × Option Err :=
  match rd r.inner len with
  | (t1, got, e) =>
    let n := got.length
    let r1 : RdState τ := { r with inner := t1, bytesRead := r.bytesRead + n }
    let buf := fill len got
    match e with
    | some e1 => (r1, buf, n, some e1)
    | none =>
      if (paddedLenN r.size : Int) < r1.bytesRead then
        (r1, buf, n, some .corruptOutOfBounds)
      else (r1, buf, n, none)

/-- Reader.ReadChunk: read the 8-byte chunk header, then the padded
payload; populate the chunk from the header and the (zero-backed) data
buffer before the payload error checks. -/
def readChunk (rd : ReadFn τ) (r : RdState τ) (c : Chunk) :
    RdState τ × Chunk × Nat × Option Err :=
  match rread rd r 8 with
  | (r1, _, headerN, some e) => (r1, c, headerN, some e)
  | (r1, header, headerN, none) =>
    if headerN < 8 then (r1, c, headerN, some .corruptTooShort)
    else
      let chunkSize := leU32 (header.drop 4)
      match rread rd r1 (paddedLenN chunkSize) with
      | (r2, dataBuf, dataN, dataErr) =>
        let totalN := headerN + dataN
        let c1 : Chunk := { identifier := header.take 4, data := dataBuf.take chunkSize }
        match dataErr with
        | some e => (r2, c1, totalN, some e)
        | none =>
          if dataN < paddedLenN chunkSize then (r2, c1, totalN, some .corruptTooShort)
          else (r2, c1, totalN, none)

/-- Result of the 12-byte header read performed by reader.New via
internal.Read: final transport state, the three 4-byte buffers, the total
byte count and the first error. -/
structure Hdr3 (τ : Type) where
  t : τ
  tag : List Nat
  szb : List Nat
  ftb : List Nat
  total : Nat
  err : Option Err
deriving DecidableEq, Repr

/-- internal.Read specialised to the three 4-byte header slices of
reader.New: sequential reads, stopping at the first error, with a short
read promoted to the buffer-underflow error. -/
def read3 (rd : ReadFn τ) (t : τ) : Hdr3 τ :=
  match rd t 4 with
  | (t1, g1, some e) => ⟨t1, fill 4 g1, zeros 4, zeros 4, g1.length, some e⟩
  | (t1, g1, none) =>
    if g1.length < 4 then ⟨t1, fill 4 g1, zeros 4, zeros 4, g1.length, some .underflowE⟩
    else
      match rd t1 4 with
      | (t2, g2, some e) => ⟨t2, fill 4 g1, fill 4 g2, zeros 4, g1.length + g2.length, some e⟩
      | (t2, g2, none) =>
        if g2.length < 4 then
          ⟨t2, fill 4 g1, fill 4 g2, zeros 4, g1.length + g2.length, some .underflowE⟩
        else
          match rd t2 4 with
          | (t3, g3, some e) =>
            ⟨t3, fill 4 g1, fill 4 g2, fill 4 g3, g1.length + g2.length + g3.length, some e⟩
          | (t3, g3, none) =>
            if g3.length < 4 then
              ⟨t3, fill 4 g1, fill 4 g2, fill 4 g3, g1.length + g2.length + g3.length,
                some .underflowE⟩
            else
              ⟨t3, fill 4 g1, fill 4 g2, fill 4 g3, g1.length + g2.length + g3.length, none⟩

/-- reader.wrap: promote buffer underflow and end-of-stream to the
corrupted-too-short error, pass every other error through. -/
def wrapErr (e : Err) : Err :=
  if e = .underflowE ∨ e = .eofE then .corruptTooShort else e

/-- reader.New: read the 12-byte header, check the RIFF tag, parse the
declared size, reject sizes below 4, and start the counter at 4. -/
def riffNew (rd : ReadFn τ) (t : τ) : Except Err (RdState τ) :=
  match (read3 rd t).err with
  | some e => .error (wrapErr e)
  | none =>
    if (read3 rd t).tag = riffTag then
      if leU32 (read3 rd t).szb < 4 then .error .corruptSmallSize
      else .ok { fileType := (read3 rd t).ftb, size := leU32 (read3 rd t).szb,
                 bytesRead := 4, inner := (read3 rd t).t }
    else .error .corruptBadTag

/-- Reader.ReadToEnd with explicit fuel (the Go loop runs until EOF or an
error; fuel bounds the number of iterations modelled). -/
def readToEnd (rd : ReadFn τ) : Nat → RdState τ → RdState τ × List Chunk × Option Err
  | 0, r => (r, [], some .outOfFuel)
  | fuel + 1, r =>
    match readChunk rd r { identifier := zeros 4, data := [] } with
    | (r1, _, _, some e) =>
      if e = .eofE then (r1, [], none) else (r1, [], some e)
    | (r1, c, _, none) =>
      match readToEnd rd fuel r1 with
      | (r2, cs, e2) => (r2, c :: cs, e2)

/-- bytes.Buffer-style transport over a byte list: deliver up to the
requested count; report end-of-stream only when the buffer is empty and at
least one byte was requested. -/
def bufferRead : ReadFn (List Nat) := fun buf len =>
  if len = 0 then (buf, [], none)
  else if buf.isEmpty then (buf, [], some .eofE)
  else (buf.drop len, buf.take len, none)

end Reader

section Writer

variable {τ : Type}

/-- A writer transport: one Write call takes the inner state and the bytes
to write and yields the new state, the number of bytes accepted and an
optional error. -/
abbrev WriteFn (τ : Type) := τ → List Nat → τ × Nat × Option Err

/-- A positioned-write transport: WriteAt takes the bytes and an offset. -/
abbrev WriteAtFn (τ : Type) := τ → List Nat → Int → τ × Nat × Option Err

/-- writer.Writer session state: file type, running size counter (int64)
and the closed flag. -/
structure WrState (τ : Type) where
  fileType : List Nat
  fileSize : Int
  closed : Bool
  inner : τ
deriving DecidableEq, Repr

/-- internal.Write: write each slice in sequence, stop at the first error
returning the cumulative count, and promote a short write to the
short-write error. -/
def internWrite (wr : WriteFn τ) : τ → List (List Nat) → τ × Nat × Option Err
  | t, [] => (t, 0, none)
  | t, b :: rest =>
    match wr t b with
    | (t1, n, some e) => (t1, n, some e)
    | (t1, n, none) =>
      if n < b.length then (t1, n, some .shortWriteE)
      else
        match internWrite wr t1 rest with
        | (t2, m, e2) => (t2, n + m, e2)

/-- The three slices Writer.WriteChunk passes to internal.Write: the
identifier, the little-endian uint32 payload length (truncated to 32 bits
as by the Go conversion), and the padded payload. -/
def chunkSlices (c : Chunk) : List (List Nat) :=
  [c.identifier, le32 (c.data.length % 2 ^ 32), padList c.data]

/-- The overflow test of Writer.WriteChunk on the prospective int64 size:
the new size exceeds the maximum uint32 value or the addition wrapped. -/
def overflowCond (w : WrState τ) (c : Chunk) : Prop :=
  4294967295 < i64 (w.fileSize + byteLength c) ∨
    i64 (w.fileSize + byteLength c) < w.fileSize

instance (w : WrState τ) (c : Chunk) : Decidable (overflowCond w c) := by
  unfold overflowCond
  exact inferInstance

/-- Writer.WriteChunk: reject when closed, reject a prospective size
overflow before writing anything, otherwise write the three slices; the
running size is advanced only when the write returns no error. -/
def writeChunk (wr : WriteFn τ) (w : WrState τ) (c : Chunk) :
    WrState τ × Nat × Option Err :=
  if w.closed then (w, 0, some .closedE)
  else if overflowCond w c then (w, 0, some .corruptOverflow)
  else
    match internWrite wr w.inner (chunkSlices c) with
    | (t1, n, some e) => ({ w with inner := t1 }, n, some e)
    | (t1, n, none) => ({ w with inner := t1, fileSize := w.fileSize + n }, n, none)

/-- writer.New: write the RIFF tag, the four-byte zero size placeholder
and the file type; on success the running size starts at 4. -/
def riffWNew (wr : WriteFn τ) (t : τ) (ft : List Nat) : Except Err (WrState τ) :=
  match internWrite wr t [riffTag, zeros 4, ft] with
  | (_, _, some e) => .error e
  | (t1, _, none) => .ok { fileType := ft, fileSize := 4, closed := false, inner := t1 }

/-- Writer.Close: reject when already closed, otherwise mark closed and
issue one positioned write of the final size (uint32, little-endian) at
offset 4, via internal.WriteAt (which promotes a short write). -/
def closeW (wrAt : WriteAtFn τ) (w : WrState τ) : WrState τ × Option Err :=
  if w.closed then (w, some .closedE)
  else
    match wrAt w.inner (le32 (u32cast w.fileSize)) 4 with
    | (t1, n, e) =>
      let w1 : WrState τ := { w with closed := true, inner := t1 }
      match e with
      | some e1 => (w1, some e1)
      | none => if n < 4 then (w1, some .shortWriteE) else (w1, none)

/-- Writer.WriteChunk folded over a list of chunks, accumulating the byte
count and stopping at the first error. -/
def writeAll (wr : WriteFn τ) (w : WrState τ) : List Chunk → WrState τ × Nat × Option Err
  | [] => (w, 0, none)
  | c :: cs =>
    match writeChunk wr w c with
    | (w1, n, some e) => (w1, n, some e)
    | (w1, n, none) =>
      match writeAll wr w1 cs with
      | (w2, m, e2) => (w2, n + m, e2)

/-- In-memory file transport for sequential writes: append and accept all
bytes. -/
def fileWrite : WriteFn (List Nat) := fun t b => (t ++ b, b.length, none)

/-- In-memory file transport for positioned writes: overwrite at the
offset. -/
def fileWriteAt : WriteAtFn (List Nat) := fun t b off =>
  (t.take off.toNat ++ b ++ t.drop (off.toNat + b.length), b.length, none)

end Writer

section Wave

/-- wave.Format: the parsed WAVE format fields (uint16 and uint32 values,
stored as naturals below their bit widths in well-formed data). -/
structure Format where
  bitsPerSample : Nat
  channels : Nat
  sampleRate : Nat
  audioFormat : Nat
deriving DecidableEq, Repr

/-- Format.BlockAlign: BitsPerSample / 8 * Channels in uint16
arithmetic. -/
def blockAlign (f : Format) : Nat :=
  f.bitsPerSample / 8 * f.channels % 65536

/-- Format.BytesPerSecond: SampleRate * uint32(BitsPerSample) / 8 *
uint32(Channels) in uint32 arithmetic (left-associated, as in the
source). -/
def bytesPerSecond (f : Format) : Nat :=
  f.sampleRate * f.bitsPerSample % 4294967296 / 8 * f.channels % 4294967296

/-- internal.ReadLittleEndianUInt16 from a byte list: panics (none) when
fewer than two bytes remain. -/
def take2 : List Nat → Option (Nat × List Nat)
  | a :: b :: rest => some (a + 256 * b, rest)
  | _ => none

/-- internal.ReadLittleEndianUInt32 from a byte list: panics (none) when
fewer than four bytes remain. -/
def take4 : List Nat → Option (Nat × List Nat)
  | a :: b :: c :: d :: rest =>
    some (a + 256 * b + 65536 * c + 16777216 * d, rest)
  | _ => none

/-- The six positional field reads of wave.FormatFromReader over the chunk
payload: audio format, channels, sample rate, stored bytes-per-second,
stored block alignment, bits per sample.  A none result models the panic
raised by the byte-reader helpers on a too-short payload. -/
def parseFormatFields (d : List Nat) : Option (Nat × Nat × Nat × Nat × Nat × Nat) :=
  match take2 d with
  | none => none
  | some (af, d1) =>
    match take2 d1 with
    | none => none
    | some (chans, d2) =>
      match take4 d2 with
      | none => none
      | some (sr, d3) =>
        match take4 d3 with
        | none => none
        | some (expBPS, d4) =>
          match take2 d4 with
          | none => none
          | some (expBA, d5) =>
            match take2 d5 with
            | none => none
            | some (bps, _) => some (af, chans, sr, expBPS, expBA, bps)

/-- Outcome of the WAVE format decode: a format, an error, or a Go
panic. -/
inductive DecodeOut where
  | ok (f : Format)
  | err (e : Err)
  | panicked
deriving DecidableEq, Repr

/-- wave.Validate: bits per sample nonzero and a multiple of 8, channels
nonzero, sample rate nonzero. -/
def validateFormat (f : Format) : Option Err :=
  if f.bitsPerSample = 0 then some .invalidBitRate
  else if f.bitsPerSample % 8 ≠ 0 then some .invalidBitRate
  else if f.channels = 0 then some .invalidChannels
  else if f.sampleRate = 0 then some .invalidSampleRate
  else none

/-- wave.LengthFormatChunk: chunk header plus the 16-byte fixed payload. -/
def lengthFormatChunk : Nat := 24

/-- The chunk-level logic of wave.FormatFromReader after ReadChunk
returned byte count n and chunk ch: size check, identifier check,
positional field parse, the two cross-field consistency checks and the
final validation. -/
def formatFromChunk (n : Nat) (ch : Chunk) : DecodeOut :=
  if n ≠ lengthFormatChunk then .err .badWave
  else if ch.identifier ≠ fmtTag then .err .badWave
  else
    match parseFormatFields ch.data with
    | none => .panicked
    | some (af, chans, sr, expBPS, expBA, bps) =>
      let f : Format :=
        { bitsPerSample := bps, channels := chans, sampleRate := sr, audioFormat := af }
      if expBPS ≠ bytesPerSecond f then .err .inconsistentBPS
      else if expBA ≠ blockAlign f then .err .inconsistentBA
      else
        match validateFormat f with
        | some e => .err e
        | none => .ok f

end Wave

section Helpers

variable {τ : Type}

theorem fill_length (len : Nat) (got : List Nat) : (fill len got).length = len := by
  simp [fill, zeros]
  omega

theorem fill_of_length {len : Nat} {got : List Nat} (h : got.length = len) :
    fill len got = got := by
  simp [fill, zeros, ← h]

theorem le32_length (u : Nat) : (le32 u).length = 4 := rfl

theorem leU32_le32 {u : Nat} (h : u < 2 ^ 32) : leU32 (le32 u) = u := by
  simp [leU32, le32]
  omega

theorem paddedLenN_cast (n : Nat) : (paddedLenN n : Int) = (n : Int) + (n : Int) % 2 := by
  unfold paddedLenN
  split <;> push_cast <;> omega

theorem paddedLenN_even (n : Nat) : paddedLenN n % 2 = 0 := by
  unfold paddedLenN
  split <;> omega

theorem paddedLenN_ge (n : Nat) : n ≤ paddedLenN n := by
  unfold paddedLenN
  split <;> omega

theorem paddedLenN_of_even {n : Nat} (h : n % 2 = 0) : paddedLenN n = n := by
  simp [paddedLenN, h]

theorem padList_length (b : List Nat) : (padList b).length = paddedLenN b.length := by
  unfold padList paddedLenN
  split <;> simp_all

theorem padList_take (b : List Nat) : (padList b).take b.length = b := by
  unfold padList
  split
  · exact List.take_length b
  · rw [List.take_left]

theorem i64_small {x : Int} (h0 : -(2 ^ 63) ≤ x) (h1 : x < 2 ^ 63) : i64 x = x := by
  unfold i64
  omega

theorem u32cast_small {x : Int} (h0 : 0 ≤ x) (h1 : x < 2 ^ 32) : (u32cast x : Int) = x := by
  unfold u32cast
  omega

theorem byteLength_exact {c : Chunk} (h : (c.data.length : Int) ≤ 2 ^ 33) :
    byteLength c = 8 + (paddedLenN c.data.length : Int) := by
  unfold byteLength i64padded
  rw [paddedLenN_cast]
  split <;> unfold i64 <;> omega

theorem bufferRead_readOk : ReadOk bufferRead := by
  intro t k
  unfold bufferRead
  split
  · simp_all
  · split <;> simp [List.length_take]

theorem bufferRead_exact {pre : List Nat} {len : Nat} (post : List Nat)
    (h : pre.length = len) : bufferRead (pre ++ post) len = (post, pre, none) := by
  subst h
  rcases pre with _ | ⟨a, pre1⟩
  · simp [bufferRead]
  · show bufferRead ((a :: pre1) ++ post) (a :: pre1).length = _
    unfold bufferRead
    rw [if_neg (by simp), if_neg (by simp)]
    rw [List.take_left, List.drop_left]

end Helpers

section ReaderLemmas

variable {τ : Type}

theorem rread_err {rd : ReadFn τ} {r : RdState τ} {len : Nat} {t1 : τ}
    {got : List Nat} {e : Err} (h : rd r.inner len = (t1, got, some e)) :
    rread rd r len =
      ({ r with inner := t1, bytesRead := r.bytesRead + got.length },
        fill len got, got.length, some e) := by
  unfold rread
  rw [h]

theorem rread_ok {rd : ReadFn τ} {r : RdState τ} {len : Nat} {t1 : τ}
    {got : List Nat} (h : rd r.inner len = (t1, got, none))
    (hb : r.bytesRead + got.length ≤ (paddedLenN r.size : Int)) :
    rread rd r len =
      ({ r with inner := t1, bytesRead := r.bytesRead + got.length },
        fill len got, got.length, none) := by
  unfold rread
  rw [h]
  simp only
  rw [if_neg (by simp only [Int.not_lt]; exact hb)]

theorem rread_exceed {rd : ReadFn τ} {r : RdState τ} {len : Nat} {t1 : τ}
    {got : List Nat} (h : rd r.inner len = (t1, got, none))
    (hb : (paddedLenN r.size : Int) < r.bytesRead + got.length) :
    rread rd r len =
      ({ r with inner := t1, bytesRead := r.bytesRead + got.length },
        fill len got, got.length, some .corruptOutOfBounds) := by
  unfold rread
  rw [h]
  simp only
  rw [if_pos hb]

/-- Any rread outcome preserves the parsed header fields and never
decreases the consumption counter. -/
theorem rread_frame (rd : ReadFn τ) (r : RdState τ) (len : Nat) :
    (rread rd r len).1.size = r.size ∧ (rread rd r len).1.fileType = r.fileType := by
  unfold rread
  rcases rd r.inner len with ⟨t1, got, _ | e⟩ <;> simp only
  · split <;> simp
  · simp

/-- A successful rread leaves the counter within the padded declared
size. -/
theorem rread_none_bound {rd : ReadFn τ} {r : RdState τ} {len : Nat}
    {r1 : RdState τ} {buf : List Nat} {n : Nat}
    (h : rread rd r len = (r1, buf, n, none)) :
    r1.bytesRead ≤ (paddedLenN r.size : Int) ∧ r1.size = r.size := by
  unfold rread at h
  rcases hr : rd r.inner len with ⟨t1, got, e⟩
  rw [hr] at h
  rcases e with _ | e
  · simp only at h
    split at h
    · exact absurd (congrArg (fun x => x.2.2.2) h) (by simp)
    · rename_i hb
      rw [Int.not_lt] at hb
      have h1 : r1 = { r with inner := t1, bytesRead := r.bytesRead + got.length } :=
        (congrArg (fun x => x.1) h).symm
      rw [h1]
      exact ⟨hb, rfl⟩
  · exact absurd (congrArg (fun x => x.2.2.2) h) (by simp)

end ReaderLemmas

/-- Claim C5: for every reader session created by a successful open, the
cumulative bytes-consumed counter starts at 4; ReadChunk fails with the
Corrupted out-of-bounds error whenever an internal read succeeds at the
transport level (header read or payload read) and the updated counter
exceeds paddedLength(declared size); and on every successful return from
ReadChunk the counter is at most paddedLength(declared size). -/
theorem c5_consumption_counter :
    (∀ (τ : Type) (rd : ReadFn τ) (t : τ) (r : RdState τ),
       riffNew rd t = .ok r → r.bytesRead = 4) ∧
    (∀ (τ : Type) (rd : ReadFn τ) (r : RdState τ) (c : Chunk) (t1 : τ) (g1 : List Nat),
       rd r.inner 8 = (t1, g1, none) →
       (paddedLenN r.size : Int) < r.bytesRead + g1.length →
       (readChunk rd r c).2.2.2 = some .corruptOutOfBounds) ∧
    (∀ (τ : Type) (rd : ReadFn τ) (r : RdState τ) (c : Chunk) (t1 : τ) (g1 : List Nat)
       (t2 : τ) (g2 : List Nat),
       rd r.inner 8 = (t1, g1, none) → g1.length = 8 →
       r.bytesRead + 8 ≤ (paddedLenN r.size : Int) →
       rd t1 (paddedLenN (leU32 (g1.drop 4))) = (t2, g2, none) →
       (paddedLenN r.size : Int) < r.bytesRead + 8 + g2.length →
       (readChunk rd r c).2.2.2 = some .corruptOutOfBounds) ∧
    (∀ (τ : Type) (rd : ReadFn τ) (r : RdState τ) (c : Chunk) (r1 : RdState τ)
       (c1 : Chunk) (n : Nat),
       readChunk rd r c = (r1, c1, n, none) → r1.bytesRead ≤ (paddedLenN r.size : Int)) := by
  refine ⟨?_, ?_, ?_, ?_⟩
  · intro τ rd t r h
    unfold riffNew at h
    rcases he : (read3 rd t).err with _ | e
    · rw [he] at h
      simp only at h
      split at h
      · split at h
        · exact absurd h (by simp)
        · rw [Except.ok.injEq] at h
          rw [← h]
      · exact absurd h (by simp)
    · rw [he] at h
      simp only at h
      exact absurd h (by simp)
  · intro τ rd r c t1 g1 h hb
    unfold readChunk
    rw [rread_exceed h hb]
  · intro τ rd r c t1 g1 t2 g2 h1 hg1 hb8 h2 hex
    have hb1 : r.bytesRead + (g1.length : Int) ≤ (paddedLenN r.size : Int) := by
      rw [hg1]
      exact_mod_cast hb8
    unfold readChunk
    rw [rread_ok h1 hb1]
    simp only [fill_of_length hg1, hg1]
    rw [if_neg (by omega)]
    rw [rread_exceed (r := { r with inner := t1, bytesRead := r.bytesRead + ((8 : Nat) : Int) })
      h2 (by simp only; push_cast; omega)]
  · intro τ rd r c r1 c1 n h
    unfold readChunk at h
    rcases hh : rread rd r 8 with ⟨ra, hdr, hN, he⟩
    rw [hh] at h
    rcases he with _ | e
    · simp only at h
      split at h
      · exact absurd (congrArg (fun x => x.2.2.2) h) (by simp)
      · rcases hp : rread rd ra (paddedLenN (leU32 (hdr.drop 4))) with ⟨rb, dbuf, dN, de⟩
        rw [hp] at h
        rcases de with _ | e2
        · simp only at h
          split at h
          · exact absurd (congrArg (fun x => x.2.2.2) h) (by simp)
          · have h1 : r1 = rb := (congrArg (fun x => x.1) h).symm
            have hb := rread_none_bound hp
            have hs := rread_none_bound hh
            rw [h1, ← hs.2]
            exact hb.1
        · exact absurd (congrArg (fun x => x.2.2.2) h) (by simp)
    · exact absurd (congrArg (fun x => x.2.2.2) h) (by simp)

/-- Witness for c5_consumption_counter: a concrete session over a byte
buffer whose declared size is exceeded by the second chunk header read. -/
theorem c5_consumption_counter_witness :
    (readChunk bufferRead
      { fileType := waveTag, size := 4, bytesRead := 4,
        inner := dataTag ++ le32 0 } { identifier := zeros 4, data := [] }).2.2.2 =
      some .corruptOutOfBounds :=
  c5_consumption_counter.2.1 (List Nat) bufferRead
    { fileType := waveTag, size := 4, bytesRead := 4, inner := dataTag ++ le32 0 }
    { identifier := zeros 4, data := [] }
    ([] : List Nat) (dataTag ++ le32 0)
    (by rw [show dataTag ++ le32 0 = (dataTag ++ le32 0) ++ [] by simp]
        exact bufferRead_exact [] rfl)
    (by decide)

/-- Claim C9: opening a reader fails with Corrupted when the first four
bytes are not the RIFF tag, when the 12-byte header read stops with
end-of-stream or a buffer underflow, or when the declared size is below 4;
any other transport-level read error is passed through unmodified; and on
success the session holds the parsed file type, the declared size and a
bytes-consumed counter of 4. -/
theorem c9_open_validation :
    (∀ (τ : Type) (rd : ReadFn τ) (t : τ) (e : Err),
       (read3 rd t).err = some e → e ≠ .eofE → e ≠ .underflowE →
       riffNew rd t = .error e) ∧
    (∀ (τ : Type) (rd : ReadFn τ) (t : τ) (e : Err),
       (read3 rd t).err = some e → (e = .eofE ∨ e = .underflowE) →
       riffNew rd t = .error .corruptTooShort ∧ Err.isCorrupted .corruptTooShort = true) ∧
    (∀ (τ : Type) (rd : ReadFn τ) (t : τ),
       (read3 rd t).err = none → (read3 rd t).tag ≠ riffTag →
       riffNew rd t = .error .corruptBadTag ∧ Err.isCorrupted .corruptBadTag = true) ∧
    (∀ (τ : Type) (rd : ReadFn τ) (t : τ),
       (read3 rd t).err = none → (read3 rd t).tag = riffTag →
       leU32 (read3 rd t).szb < 4 →
       riffNew rd t = .error .corruptSmallSize ∧ Err.isCorrupted .corruptSmallSize = true) ∧
    (∀ (τ : Type) (rd : ReadFn τ) (t : τ),
       (read3 rd t).err = none → (read3 rd t).tag = riffTag →
       4 ≤ leU32 (read3 rd t).szb →
       riffNew rd t = .ok { fileType := (read3 rd t).ftb, size := leU32 (read3 rd t).szb,
                            bytesRead := 4, inner := (read3 rd t).t }) := by
  refine ⟨?_, ?_, ?_, ?_, ?_⟩
  · intro τ rd t e he hne hnu
    unfold riffNew
    rw [he]
    simp only [wrapErr]
    rw [if_neg (by simp [hne, hnu])]
  · intro τ rd t e he hor
    refine ⟨?_, rfl⟩
    unfold riffNew
    rw [he]
    simp only [wrapErr]
    rw [if_pos (by rcases hor with h | h <;> simp [h])]
  · intro τ rd t he htag
    refine ⟨?_, rfl⟩
    unfold riffNew
    rw [he]
    simp only
    rw [if_neg htag]
  · intro τ rd t he htag hsz
    refine ⟨?_, rfl⟩
    unfold riffNew
    rw [he]
    simp only
    rw [if_pos htag, if_pos hsz]
  · intro τ rd t he htag hsz
    unfold riffNew
    rw [he]
    simp only
    rw [if_pos htag, if_neg (by omega)]

/-- Witness for c9_open_validation: a concrete stream whose first four
bytes are not the RIFF tag is rejected as corrupted. -/
theorem c9_open_validation_witness :
    riffNew bufferRead ([82, 73, 70, 88] ++ le32 42 ++ waveTag) = .error .corruptBadTag :=
  (c9_open_validation.2.2.1 (List Nat) bufferRead
    ([82, 73, 70, 88] ++ le32 42 ++ waveTag) (by decide) (by decide)).1

/-- Concrete stream for the C2 counterexample: a well-formed RIFF header
declaring size 12, followed by a chunk header declaring a 100-byte payload
and then end-of-stream. -/
def streamC2 : List Nat := riffTag ++ le32 12 ++ waveTag ++ dataTag ++ le32 100

/-- Counterexample to claim C2 as stated: after the complete 8-byte chunk
header has been consumed, the payload read hits end-of-stream having
delivered fewer bytes than the padded payload length, and ReadChunk
returns the plain end-of-stream signal rather than Corrupted — end-of-
stream is surfaced in the middle of a chunk, not only at a chunk
boundary. -/
theorem c2_counterexample :
    riffNew bufferRead streamC2 =
      .ok { fileType := waveTag, size := 12, bytesRead := 4, inner := dataTag ++ le32 100 } ∧
    (readChunk bufferRead
      { fileType := waveTag, size := 12, bytesRead := 4, inner := dataTag ++ le32 100 }
      { identifier := zeros 4, data := [] }).2.2 = (8, some .eofE) ∧
    Err.isCorrupted .eofE = false :=
  ⟨rfl, rfl, rfl⟩

/-- Claim C2 (amended): a fixed-size field read (chunk header or padded
payload) that delivers fewer bytes than requested with no transport error
is promoted to a Corrupted error; a transport-reported error on either
read — including end-of-stream — is passed through unmodified, so the
plain end-of-stream signal surfaces exactly when the transport reports it,
even after bytes of the next chunk have been consumed. -/
theorem c2_short_reads_corrupted :
    (∀ (τ : Type) (rd : ReadFn τ) (r : RdState τ) (c : Chunk) (t1 : τ) (g1 : List Nat),
       rd r.inner 8 = (t1, g1, none) → g1.length < 8 →
       ∃ e, (readChunk rd r c).2.2.2 = some e ∧ e.isCorrupted = true) ∧
    (∀ (τ : Type) (rd : ReadFn τ) (r : RdState τ) (c : Chunk) (t1 : τ) (g1 : List Nat)
       (e : Err), rd r.inner 8 = (t1, g1, some e) →
       (readChunk rd r c).2.2.2 = some e) ∧
    (∀ (τ : Type) (rd : ReadFn τ) (r : RdState τ) (c : Chunk) (t1 : τ) (g1 : List Nat)
       (t2 : τ) (g2 : List Nat),
       rd r.inner 8 = (t1, g1, none) → g1.length = 8 →
       r.bytesRead + 8 ≤ (paddedLenN r.size : Int) →
       rd t1 (paddedLenN (leU32 (g1.drop 4))) = (t2, g2, none) →
       g2.length < paddedLenN (leU32 (g1.drop 4)) →
       ∃ e, (readChunk rd r c).2.2.2 = some e ∧ e.isCorrupted = true) ∧
    (∀ (τ : Type) (rd : ReadFn τ) (r : RdState τ) (c : Chunk) (t1 : τ) (g1 : List Nat)
       (t2 : τ) (g2 : List Nat) (e : Err),
       rd r.inner 8 = (t1, g1, none) → g1.length = 8 →
       r.bytesRead + 8 ≤ (paddedLenN r.size : Int) →
       rd t1 (paddedLenN (leU32 (g1.drop 4))) = (t2, g2, some e) →
       (readChunk rd r c).2.2.2 = some e) := by
  refine ⟨?_, ?_, ?_, ?_⟩
  · intro τ rd r c t1 g1 h hlt
    by_cases hbnd : (paddedLenN r.size : Int) < r.bytesRead + g1.length
    · refine ⟨.corruptOutOfBounds, ?_, rfl⟩
      unfold readChunk
      rw [rread_exceed h hbnd]
    · refine ⟨.corruptTooShort, ?_, rfl⟩
      unfold readChunk
      rw [rread_ok h (Int.not_lt.mp hbnd)]
      simp only
      rw [if_pos hlt]
  · intro τ rd r c t1 g1 e h
    unfold readChunk
    rw [rread_err h]
  · intro τ rd r c t1 g1 t2 g2 h1 hg1 hb8 h2 hshort
    have hb1 : r.bytesRead + (g1.length : Int) ≤ (paddedLenN r.size : Int) := by
      rw [hg1]
      exact_mod_cast hb8
    by_cases hbnd : (paddedLenN r.size : Int) <
        r.bytesRead + ((8 : Nat) : Int) + g2.length
    · refine ⟨.corruptOutOfBounds, ?_, rfl⟩
      unfold readChunk
      rw [rread_ok h1 hb1]
      simp only [fill_of_length hg1, hg1]
      rw [if_neg (by omega)]
      rw [rread_exceed
        (r := { r with inner := t1, bytesRead := r.bytesRead + ((8 : Nat) : Int) }) h2
        (by simp only; push_cast; push_cast at hbnd; omega)]
    · refine ⟨.corruptTooShort, ?_, rfl⟩
      unfold readChunk
      rw [rread_ok h1 hb1]
      simp only [fill_of_length hg1, hg1]
      rw [if_neg (by omega)]
      rw [rread_ok
        (r := { r with inner := t1, bytesRead := r.bytesRead + ((8 : Nat) : Int) }) h2
        (by simp only; push_cast; push_cast at hbnd; omega)]
      simp only
      rw [if_pos hshort]
  · intro τ rd r c t1 g1 t2 g2 e h1 hg1 hb8 h2
    have hb1 : r.bytesRead + (g1.length : Int) ≤ (paddedLenN r.size : Int) := by
      rw [hg1]
      exact_mod_cast hb8
    unfold readChunk
    rw [rread_ok h1 hb1]
    simp only [fill_of_length hg1, hg1]
    rw [if_neg (by omega)]
    rw [rread_err
      (r := { r with inner := t1, bytesRead := r.bytesRead + ((8 : Nat) : Int) }) h2]

/-- Witness for c2_short_reads_corrupted: a session whose transport
delivers only 3 of the 8 requested header bytes with no error. -/
theorem c2_short_reads_corrupted_witness :
    ∃ e, (readChunk bufferRead
      { fileType := waveTag, size := 42, bytesRead := 4, inner := [1, 2, 3] }
      { identifier := zeros 4, data := [] }).2.2.2 = some e ∧ e.isCorrupted = true :=
  c2_short_reads_corrupted.1 (List Nat) bufferRead
    { fileType := waveTag, size := 42, bytesRead := 4, inner := [1, 2, 3] }
    { identifier := zeros 4, data := [] } [] [1, 2, 3] (by decide) (by decide)

/-- Concrete stream for the C10 counterexample: a RIFF header with the
minimal declared size 4 followed by a full 8-byte chunk header. -/
def streamC10 : List Nat := riffTag ++ le32 4 ++ waveTag ++ dataTag ++ le32 0

/-- Counterexample to claim C10 as stated: the full 8-byte chunk header is
obtained from the stream (the returned count is 8) and ReadChunk fails
with the consumption-bound error, yet the output chunk still holds the
sentinel values it was passed — its Identifier was not set from the
header. -/
theorem c10_counterexample :
    riffNew bufferRead streamC10 =
      .ok { fileType := waveTag, size := 4, bytesRead := 4, inner := dataTag ++ le32 0 } ∧
    readChunk bufferRead
      { fileType := waveTag, size := 4, bytesRead := 4, inner := dataTag ++ le32 0 }
      { identifier := [9, 9, 9, 9], data := [7] } =
      ({ fileType := waveTag, size := 4, bytesRead := 12, inner := [] },
        { identifier := [9, 9, 9, 9], data := [7] }, 8, some .corruptOutOfBounds) ∧
    ([9, 9, 9, 9] : List Nat) ≠ dataTag :=
  ⟨rfl, rfl, by decide⟩

/-- Claim C10 (amended): the output chunk is populated — Identifier from
the header, Data a slice of exactly the declared size, zero-filled where
the stream supplied no bytes — exactly when the 8-byte header read returns
no error and delivers all 8 bytes and passes the consumption check; when
the header read itself fails (transport error, or consumption bound
exceeded at the header read), the output chunk is left unchanged even if
all 8 header bytes were obtained. -/
theorem c10_chunk_population :
    (∀ (τ : Type) (rd : ReadFn τ) (r : RdState τ) (c : Chunk) (t1 : τ) (g1 : List Nat)
       (e : Err), rd r.inner 8 = (t1, g1, some e) → (readChunk rd r c).2.1 = c) ∧
    (∀ (τ : Type) (rd : ReadFn τ) (r : RdState τ) (c : Chunk) (t1 : τ) (g1 : List Nat),
       rd r.inner 8 = (t1, g1, none) →
       (paddedLenN r.size : Int) < r.bytesRead + g1.length →
       (readChunk rd r c).2.1 = c) ∧
    (∀ (τ : Type) (rd : ReadFn τ) (r : RdState τ) (c : Chunk) (t1 : τ) (g1 : List Nat)
       (t2 : τ) (g2 : List Nat) (e2 : Option Err),
       rd r.inner 8 = (t1, g1, none) → g1.length = 8 →
       r.bytesRead + 8 ≤ (paddedLenN r.size : Int) →
       rd t1 (paddedLenN (leU32 (g1.drop 4))) = (t2, g2, e2) →
       (readChunk rd r c).2.1 =
         { identifier := g1.take 4,
           data := (fill (paddedLenN (leU32 (g1.drop 4))) g2).take (leU32 (g1.drop 4)) } ∧
       ((readChunk rd r c).2.1).data.length = leU32 (g1.drop 4)) := by
  refine ⟨?_, ?_, ?_⟩
  · intro τ rd r c t1 g1 e h
    unfold readChunk
    rw [rread_err h]
  · intro τ rd r c t1 g1 h hbnd
    unfold readChunk
    rw [rread_exceed h hbnd]
  · intro τ rd r c t1 g1 t2 g2 e2 h1 hg1 hb8 h2
    have hb1 : r.bytesRead + (g1.length : Int) ≤ (paddedLenN r.size : Int) := by
      rw [hg1]
      exact_mod_cast hb8
    have hlen : ((fill (paddedLenN (leU32 (g1.drop 4))) g2).take
        (leU32 (g1.drop 4))).length = leU32 (g1.drop 4) := by
      rw [List.length_take, fill_length]
      exact Nat.min_eq_left (paddedLenN_ge _)
    have hchunk : (readChunk rd r c).2.1 =
        { identifier := g1.take 4,
          data := (fill (paddedLenN (leU32 (g1.drop 4))) g2).take (leU32 (g1.drop 4)) } := by
      unfold readChunk
      rw [rread_ok h1 hb1]
      simp only [fill_of_length hg1, hg1]
      rw [if_neg (by omega)]
      rcases e2 with _ | e2
      · by_cases hbnd : (paddedLenN r.size : Int) <
            r.bytesRead + ((8 : Nat) : Int) + g2.length
        · rw [rread_exceed
            (r := { r with inner := t1, bytesRead := r.bytesRead + ((8 : Nat) : Int) }) h2
            (by simp only; push_cast; push_cast at hbnd; omega)]
        · rw [rread_ok
            (r := { r with inner := t1, bytesRead := r.bytesRead + ((8 : Nat) : Int) }) h2
            (by simp only; push_cast; push_cast at hbnd; omega)]
          simp only
          split <;> rfl
      · rw [rread_err
          (r := { r with inner := t1, bytesRead := r.bytesRead + ((8 : Nat) : Int) }) h2]
    refine ⟨hchunk, ?_⟩
    rw [hchunk]
    exact hlen

/-- Witness for c10_chunk_population: the session of the C2 stream, whose
payload read hits end-of-stream; the chunk is still populated from the
header, with a 100-byte zero-filled Data slice. -/
theorem c10_chunk_population_witness :
    (readChunk bufferRead
      { fileType := waveTag, size := 12, bytesRead := 4, inner := dataTag ++ le32 100 }
      { identifier := zeros 4, data := [] }).2.1 =
      { identifier := (dataTag ++ le32 100).take 4,
        data := (fill (paddedLenN (leU32 ((dataTag ++ le32 100).drop 4))) []).take
          (leU32 ((dataTag ++ le32 100).drop 4)) } ∧
    ((readChunk bufferRead
      { fileType := waveTag, size := 12, bytesRead := 4, inner := dataTag ++ le32 100 }
      { identifier := zeros 4, data := [] }).2.1).data.length =
      leU32 ((dataTag ++ le32 100).drop 4) :=
  c10_chunk_population.2.2 (List Nat) bufferRead
    { fileType := waveTag, size := 12, bytesRead := 4, inner := dataTag ++ le32 100 }
    { identifier := zeros 4, data := [] } [] (dataTag ++ le32 100) [] [] (some .eofE)
    (by decide) (by decide) (by decide) (by decide)

/-- Concrete stream of the specification scenario: container declaring
size 42 with a 5-byte fmt chunk (padded to 6 on the wire) and an 8-byte
data chunk. -/
def stream42 : List Nat :=
  riffTag ++ le32 42 ++ waveTag ++
    fmtTag ++ le32 5 ++ [1, 2, 3, 4, 5, 0] ++
    dataTag ++ le32 8 ++ [1, 2, 3, 4, 5, 6, 7, 8]

/-- Reader session right after opening stream42. -/
def rd42a : RdState (List Nat) :=
  { fileType := waveTag, size := 42, bytesRead := 4,
    inner := fmtTag ++ le32 5 ++ [1, 2, 3, 4, 5, 0] ++
      dataTag ++ le32 8 ++ [1, 2, 3, 4, 5, 6, 7, 8] }

/-- Reader session after consuming the fmt chunk of stream42. -/
def rd42b : RdState (List Nat) :=
  { fileType := waveTag, size := 42, bytesRead := 18,
    inner := dataTag ++ le32 8 ++ [1, 2, 3, 4, 5, 6, 7, 8] }

/-- Reader session after consuming both chunks of stream42. -/
def rd42c : RdState (List Nat) :=
  { fileType := waveTag, size := 42, bytesRead := 34, inner := [] }

/-- Claim C4: on every successful ReadChunk the returned chunk's Data has
exactly the declared (unpadded) length, the byte count returned is 8 plus
the padded declared length (so the pad byte is consumed but not exposed),
and the identifier comes from the header; in particular on the concrete
stream with a 5-byte fmt chunk and an 8-byte data chunk the two calls
consume 14 and 16 bytes, 30 in total, and return the unpadded data. -/
theorem c4_read_chunk_sizes :
    (∀ (τ : Type) (rd : ReadFn τ), ReadOk rd →
       ∀ (r : RdState τ) (c : Chunk) (t1 : τ) (g1 : List Nat),
         rd r.inner 8 = (t1, g1, none) → g1.length = 8 →
         ∀ (r1 : RdState τ) (c1 : Chunk) (n : Nat),
           readChunk rd r c = (r1, c1, n, none) →
           c1.data.length = leU32 (g1.drop 4) ∧
           n = 8 + paddedLenN (leU32 (g1.drop 4)) ∧
           c1.identifier = g1.take 4) ∧
    riffNew bufferRead stream42 = .ok rd42a ∧
    readChunk bufferRead rd42a { identifier := zeros 4, data := [] } =
      (rd42b, { identifier := fmtTag, data := [1, 2, 3, 4, 5] }, 14, none) ∧
    readChunk bufferRead rd42b { identifier := zeros 4, data := [] } =
      (rd42c, { identifier := dataTag, data := [1, 2, 3, 4, 5, 6, 7, 8] }, 16, none) ∧
    14 + 16 = 30 := by
  refine ⟨?_, rfl, rfl, rfl, rfl⟩
  intro τ rd hok r c t1 g1 h1 hg1 r1 c1 n h
  unfold readChunk at h
  by_cases hbnd : (paddedLenN r.size : Int) < r.bytesRead + g1.length
  · rw [rread_exceed h1 hbnd] at h
    exact absurd (congrArg (fun x => x.2.2.2) h) (by simp)
  · rw [rread_ok h1 (Int.not_lt.mp hbnd)] at h
    simp only [fill_of_length hg1, hg1] at h
    rw [if_neg (by omega)] at h
    rcases hp : rd t1 (paddedLenN (leU32 (g1.drop 4))) with ⟨t2, g2, e2⟩
    rcases e2 with _ | e2
    · by_cases hbnd2 : (paddedLenN r.size : Int) <
          r.bytesRead + ((8 : Nat) : Int) + g2.length
      · rw [rread_exceed
          (r := { r with inner := t1, bytesRead := r.bytesRead + ((8 : Nat) : Int) }) hp
          (by simp only; push_cast; push_cast at hbnd2; omega)] at h
        exact absurd (congrArg (fun x => x.2.2.2) h) (by simp)
      · rw [rread_ok
          (r := { r with inner := t1, bytesRead := r.bytesRead + ((8 : Nat) : Int) }) hp
          (by simp only; push_cast; push_cast at hbnd2; omega)] at h
        simp only at h
        split at h
        · exact absurd (congrArg (fun x => x.2.2.2) h) (by simp)
        · rename_i hge
          have hgele : paddedLenN (leU32 (g1.drop 4)) ≤ g2.length := Nat.not_lt.mp hge
          have hle : g2.length ≤ paddedLenN (leU32 (g1.drop 4)) := by
            have := hok t1 (paddedLenN (leU32 (g1.drop 4)))
            rw [hp] at this
            exact this
          have hg2 : g2.length = paddedLenN (leU32 (g1.drop 4)) :=
            Nat.le_antisymm hle hgele
          have hc1 : c1 =
              { identifier := g1.take 4,
                data := (fill (paddedLenN (leU32 (g1.drop 4))) g2).take (leU32 (g1.drop 4)) } :=
            (congrArg (fun x => x.2.1) h).symm
          have hn : n = 8 + g2.length := (congrArg (fun x => x.2.2.1) h).symm
          refine ⟨?_, ?_, ?_⟩
          · rw [hc1]
            simp only [List.length_take, fill_length]
            exact Nat.min_eq_left (paddedLenN_ge _)
          · rw [hn, hg2]
          · rw [hc1]
    · rw [rread_err
        (r := { r with inner := t1, bytesRead := r.bytesRead + ((8 : Nat) : Int) }) hp] at h
      exact absurd (congrArg (fun x => x.2.2.2) h) (by simp)

/-- Witness for c4_read_chunk_sizes: the general size property applied to
the first chunk read of the concrete stream. -/
theorem c4_read_chunk_sizes_witness :
    ({ identifier := fmtTag, data := [1, 2, 3, 4, 5] } : Chunk).data.length =
      leU32 ((fmtTag ++ le32 5).drop 4) ∧
    14 = 8 + paddedLenN (leU32 ((fmtTag ++ le32 5).drop 4)) ∧
    ({ identifier := fmtTag, data := [1, 2, 3, 4, 5] } : Chunk).identifier =
      (fmtTag ++ le32 5).take 4 :=
  c4_read_chunk_sizes.1 (List Nat) bufferRead bufferRead_readOk rd42a
    { identifier := zeros 4, data := [] }
    ([1, 2, 3, 4, 5, 0] ++ dataTag ++ le32 8 ++ [1, 2, 3, 4, 5, 6, 7, 8])
    (fmtTag ++ le32 5) (by decide) (by decide) rd42b
    { identifier := fmtTag, data := [1, 2, 3, 4, 5] } 14 (by decide)

section WriterClaims

variable {τ : Type}

/-- When the mathematical prospective size stays within uint32 range, the
int64 computation of Writer.WriteChunk is exact. -/
theorem newSize_exact {w : WrState τ} {c : Chunk} (h0 : 0 ≤ w.fileSize)
    (hns : w.fileSize + (8 + (paddedLenN c.data.length : Int)) ≤ 4294967295) :
    i64 (w.fileSize + byteLength c) =
      w.fileSize + (8 + (paddedLenN c.data.length : Int)) := by
  have hd : (c.data.length : Int) ≤ 2 ^ 33 := by
    have := paddedLenN_ge c.data.length
    have h2 : (paddedLenN c.data.length : Int) ≤ 4294967295 := by omega
    rw [paddedLenN_cast] at h2
    omega
  rw [byteLength_exact hd]
  rw [i64_small (by rw [paddedLenN_cast]; omega) (by rw [paddedLenN_cast] at hns ⊢; omega)]

/-- The overflow test of Writer.WriteChunk fires whenever the mathematical
prospective size exceeds the maximum uint32 value, for any reachable
writer state and Go-representable chunk. -/
theorem overflowCond_of_exceed {w : WrState τ} {c : Chunk} (h0 : 0 ≤ w.fileSize)
    (hmax : w.fileSize ≤ 4294967295) (hlen : (c.data.length : Int) < 2 ^ 63)
    (hover : 4294967295 < w.fileSize + (8 + (paddedLenN c.data.length : Int))) :
    overflowCond w c := by
  unfold overflowCond byteLength i64padded
  rw [paddedLenN_cast] at hover
  unfold i64
  omega

/-- Claim C6: if the running size plus the chunk's on-wire length (8-byte
header plus paddedLength of the data) would exceed the maximum unsigned
32-bit value, or the int64 addition would wrap, WriteChunk fails with the
Corrupted overflow error, writes nothing to the transport and leaves the
running size unchanged. -/
theorem c6_overflow_rejected :
    ∀ (τ1 : Type) (wr : WriteFn τ1) (w : WrState τ1) (c : Chunk),
      w.closed = false → 0 ≤ w.fileSize → w.fileSize ≤ 4294967295 →
      (c.data.length : Int) < 2 ^ 63 →
      (4294967295 < w.fileSize + (8 + (paddedLenN c.data.length : Int)) ∨
        i64 (w.fileSize + byteLength c) ≠
          w.fileSize + (8 + (paddedLenN c.data.length : Int))) →
      writeChunk wr w c = (w, 0, some .corruptOverflow) := by
  intro τ1 wr w c hcl h0 hmax hlen hover
  have hx : 4294967295 < w.fileSize + (8 + (paddedLenN c.data.length : Int)) := by
    rcases hover with h | h
    · exact h
    · by_contra hnot
      rw [Int.not_lt] at hnot
      exact h (newSize_exact h0 hnot)
  unfold writeChunk
  rw [if_neg (by rw [hcl]; simp), if_pos (overflowCond_of_exceed h0 hmax hlen hx)]

/-- Witness for c6_overflow_rejected: an open writer whose running size is
already at the maximum rejects one further chunk. -/
theorem c6_overflow_rejected_witness :
    writeChunk fileWrite
      { fileType := waveTag, fileSize := 4294967295, closed := false, inner := [] }
      { identifier := dataTag, data := [1] } =
      ({ fileType := waveTag, fileSize := 4294967295, closed := false, inner := [] },
        0, some .corruptOverflow) :=
  c6_overflow_rejected (List Nat) fileWrite
    { fileType := waveTag, fileSize := 4294967295, closed := false, inner := [] }
    { identifier := dataTag, data := [1] }
    rfl (by decide) (by decide) (by decide) (Or.inl (by decide))

/-- Claim C8: the first Close marks the writer closed and performs one
positioned write of the final running size as a little-endian uint32 at
offset 4, passing any error of that write through; a Close on an
already-closed writer returns the Closed error without touching the
transport; and a WriteChunk on a closed writer returns the Closed error
and writes nothing. -/
theorem c8_close_one_shot :
    (∀ (τ1 : Type) (wrAt : WriteAtFn τ1) (w : WrState τ1), w.closed = false →
       (closeW wrAt w).1.closed = true ∧
       (closeW wrAt w).1.inner = (wrAt w.inner (le32 (u32cast w.fileSize)) 4).1 ∧
       (∀ e, (wrAt w.inner (le32 (u32cast w.fileSize)) 4).2.2 = some e →
          (closeW wrAt w).2 = some e) ∧
       ((wrAt w.inner (le32 (u32cast w.fileSize)) 4).2.2 = none →
          4 ≤ (wrAt w.inner (le32 (u32cast w.fileSize)) 4).2.1 →
          (closeW wrAt w).2 = none)) ∧
    (∀ (τ1 : Type) (wrAt : WriteAtFn τ1) (w : WrState τ1), w.closed = true →
       closeW wrAt w = (w, some .closedE)) ∧
    (∀ (τ1 : Type) (wr : WriteFn τ1) (w : WrState τ1) (c : Chunk), w.closed = true →
       writeChunk wr w c = (w, 0, some .closedE)) := by
  refine ⟨?_, ?_, ?_⟩
  · intro τ1 wrAt w hcl
    unfold closeW
    rw [if_neg (by rw [hcl]; simp)]
    rcases hw : wrAt w.inner (le32 (u32cast w.fileSize)) 4 with ⟨t1, n, e⟩
    simp only [hw]
    rcases e with _ | e1
    · by_cases hn : n < 4
      · rw [if_pos hn]
        refine ⟨rfl, rfl, ?_, ?_⟩
        · intro e h
          simp at h
        · intro _ hge
          exact absurd hge (by omega)
      · rw [if_neg hn]
        exact ⟨rfl, rfl, fun e h => by simp at h, fun _ _ => rfl⟩
    · refine ⟨rfl, rfl, ?_, ?_⟩
      · intro e h
        simp only [Option.some.injEq] at h
        rw [h]
      · intro h
        simp at h
  · intro τ1 wrAt w hcl
    unfold closeW
    rw [if_pos (by rw [hcl])]
  · intro τ1 wr w c hcl
    unfold writeChunk
    rw [if_pos (by rw [hcl])]

/-- Witness for c8_close_one_shot: a concrete first close over the file
transport marks the writer closed and patches offset 4; a second close and
a write on the closed writer both fail with the Closed error. -/
theorem c8_close_one_shot_witness :
    (closeW fileWriteAt
      { fileType := waveTag, fileSize := 20, closed := false,
        inner := riffTag ++ zeros 4 ++ waveTag }).1.closed = true ∧
    closeW fileWriteAt
      { fileType := waveTag, fileSize := 20, closed := true, inner := zeros 12 } =
      ({ fileType := waveTag, fileSize := 20, closed := true, inner := zeros 12 },
        some .closedE) ∧
    writeChunk fileWrite
      { fileType := waveTag, fileSize := 20, closed := true, inner := zeros 12 }
      { identifier := dataTag, data := [1, 2] } =
      ({ fileType := waveTag, fileSize := 20, closed := true, inner := zeros 12 },
        0, some .closedE) :=
  ⟨(c8_close_one_shot.1 (List Nat) fileWriteAt
      { fileType := waveTag, fileSize := 20, closed := false,
        inner := riffTag ++ zeros 4 ++ waveTag } rfl).1,
    c8_close_one_shot.2.1 (List Nat) fileWriteAt
      { fileType := waveTag, fileSize := 20, closed := true, inner := zeros 12 } rfl,
    c8_close_one_shot.2.2 (List Nat) fileWrite
      { fileType := waveTag, fileSize := 20, closed := true, inner := zeros 12 }
      { identifier := dataTag, data := [1, 2] } rfl⟩

/-- Transport for the C1 counterexample: the first sequential write is
accepted in full, the second accepts two bytes and then fails with an
opaque transport error. -/
def wrFail : WriteFn Nat := fun k b =>
  if k = 0 then (1, b.length, none) else (2, 2, some (.transportE 7))

/-- Counterexample to claim C1 as stated: on a partial transport failure
(6 bytes accepted before the error) WriteChunk returns the transport error
unmodified, but the running size is left at 4 rather than being advanced
by the 6 bytes that reached the transport. -/
theorem c1_counterexample :
    writeChunk wrFail
      { fileType := waveTag, fileSize := 4, closed := false, inner := 0 }
      { identifier := dataTag, data := [1, 2, 3] } =
      ({ fileType := waveTag, fileSize := 4, closed := false, inner := 2 },
        6, some (.transportE 7)) ∧
    (4 : Int) ≠ 4 + 6 :=
  ⟨rfl, by decide⟩

/-- Claim C1 (amended): for every open writer and chunk passing the
overflow check, a failing transport write makes WriteChunk return the
underlying error unmodified together with the number of bytes that
actually reached the transport, and the running size counter is left
unchanged (it is only advanced on a fully successful write). -/
theorem c1_transport_failure :
    ∀ (τ1 : Type) (wr : WriteFn τ1) (w : WrState τ1) (c : Chunk) (t1 : τ1)
      (n : Nat) (e : Err),
      w.closed = false → ¬ overflowCond w c →
      internWrite wr w.inner (chunkSlices c) = (t1, n, some e) →
      writeChunk wr w c = ({ w with inner := t1 }, n, some e) ∧
      ({ w with inner := t1 } : WrState τ1).fileSize = w.fileSize := by
  intro τ1 wr w c t1 n e hcl hov hw
  refine ⟨?_, rfl⟩
  unfold writeChunk
  rw [if_neg (by rw [hcl]; simp), if_neg hov, hw]

/-- Witness for c1_transport_failure: the wrFail transport accepts the
4-byte identifier, then 2 bytes of the size field before failing. -/
theorem c1_transport_failure_witness :
    writeChunk wrFail
      { fileType := waveTag, fileSize := 4, closed := false, inner := 0 }
      { identifier := dataTag, data := [1, 2, 3] } =
      ({ fileType := waveTag, fileSize := 4, closed := false, inner := 2 },
        6, some (.transportE 7)) ∧
    ({ fileType := waveTag, fileSize := 4, closed := false, inner := 2 } :
      WrState Nat).fileSize =
      ({ fileType := waveTag, fileSize := 4, closed := false, inner := 0 } :
        WrState Nat).fileSize :=
  c1_transport_failure Nat wrFail
    { fileType := waveTag, fileSize := 4, closed := false, inner := 0 }
    { identifier := dataTag, data := [1, 2, 3] } 2 6 (.transportE 7)
    rfl (by decide) (by decide)

end WriterClaims

section WaveClaims

/-- The format assembled from the six positional fields of a format-chunk
payload, as parsed by wave.FormatFromReader. -/
def decodedFormat (d : List Nat) : Format :=
  { bitsPerSample := leU16 (d.drop 14), channels := leU16 (d.drop 2),
    sampleRate := leU32 (d.drop 4), audioFormat := leU16 d }

theorem parseFormatFields_len16 {d : List Nat} (h : d.length = 16) :
    parseFormatFields d =
      some (leU16 d, leU16 (d.drop 2), leU32 (d.drop 4), leU32 (d.drop 8),
        leU16 (d.drop 12), leU16 (d.drop 14)) := by
  rcases d with _ | ⟨b0, d⟩; · simp at h
  rcases d with _ | ⟨b1, d⟩; · simp at h
  rcases d with _ | ⟨b2, d⟩; · simp at h
  rcases d with _ | ⟨b3, d⟩; · simp at h
  rcases d with _ | ⟨b4, d⟩; · simp at h
  rcases d with _ | ⟨b5, d⟩; · simp at h
  rcases d with _ | ⟨b6, d⟩; · simp at h
  rcases d with _ | ⟨b7, d⟩; · simp at h
  rcases d with _ | ⟨b8, d⟩; · simp at h
  rcases d with _ | ⟨b9, d⟩; · simp at h
  rcases d with _ | ⟨b10, d⟩; · simp at h
  rcases d with _ | ⟨b11, d⟩; · simp at h
  rcases d with _ | ⟨b12, d⟩; · simp at h
  rcases d with _ | ⟨b13, d⟩; · simp at h
  rcases d with _ | ⟨b14, d⟩; · simp at h
  rcases d with _ | ⟨b15, d⟩; · simp at h
  rcases d with _ | ⟨b16, d⟩
  · simp [parseFormatFields, take2, take4, leU16, leU32]
  · simp at h

theorem validateFormat_cases (f : Format) :
    validateFormat f = none ∨ validateFormat f = some .invalidBitRate ∨
      validateFormat f = some .invalidChannels ∨
      validateFormat f = some .invalidSampleRate := by
  unfold validateFormat
  split_ifs <;> simp

/-- Payload of the C7 counterexample: a format chunk with declared size 15
(on-wire length 8 + paddedLength 15 = 24) whose stored byte-rate field 99
disagrees with the recomputed value. -/
def cexData15 : List Nat := [1, 0, 2, 0, 68, 172, 0, 0, 99, 0, 0, 0, 4, 0, 16]

/-- Counterexample to claim C7 as stated: a chunk with identifier fmt and
total on-wire length 24 but declared payload size 15 is accepted by the
decoder's size and identifier checks, yet the positional field parse runs
past the 15-byte payload and panics, so the decode neither returns a
Corrupted error nor any error at all, even though the stored byte-rate
field disagrees with the recomputed value. -/
theorem c7_counterexample :
    formatFromChunk 24 { identifier := fmtTag, data := cexData15 } = .panicked ∧
    (∀ e, formatFromChunk 24 { identifier := fmtTag, data := cexData15 } ≠ .err e) ∧
    cexData15.length = 15 ∧ 8 + paddedLenN 15 = 24 ∧
    leU32 (cexData15.drop 8) ≠ bytesPerSecond (decodedFormat cexData15) := by
  refine ⟨rfl, ?_, rfl, rfl, by decide⟩
  intro e h
  rw [show formatFromChunk 24 { identifier := fmtTag, data := cexData15 } = .panicked
    from rfl] at h
  exact DecodeOut.noConfusion h

/-- Claim C7 (amended): for every chunk accepted by the WAVE decoder as a
well-formed format chunk with identifier fmt, total on-wire length 24 and
declared payload size 16: decoding fails with the Corrupted
bytes-per-second error if the stored byte-rate field differs from the
recomputed sampleRate * bitsPerSample / 8 * channels, with the Corrupted
block-alignment error if the byte rate matches but the stored block
alignment differs from bitsPerSample / 8 * channels, and a chunk whose
stored fields equal the recomputed values passes both cross-field
checks. -/
theorem c7_format_cross_checks :
    ∀ ch : Chunk, ch.identifier = fmtTag → ch.data.length = 16 →
      (leU32 (ch.data.drop 8) ≠ bytesPerSecond (decodedFormat ch.data) →
        formatFromChunk 24 ch = .err .inconsistentBPS ∧
        Err.isCorrupted .inconsistentBPS = true) ∧
      (leU32 (ch.data.drop 8) = bytesPerSecond (decodedFormat ch.data) →
        leU16 (ch.data.drop 12) ≠ blockAlign (decodedFormat ch.data) →
        formatFromChunk 24 ch = .err .inconsistentBA ∧
        Err.isCorrupted .inconsistentBA = true) ∧
      (leU32 (ch.data.drop 8) = bytesPerSecond (decodedFormat ch.data) →
        leU16 (ch.data.drop 12) = blockAlign (decodedFormat ch.data) →
        formatFromChunk 24 ch ≠ .err .inconsistentBPS ∧
        formatFromChunk 24 ch ≠ .err .inconsistentBA ∧
        formatFromChunk 24 ch ≠ .panicked) := by
  intro ch hid hlen
  have hbase : formatFromChunk 24 ch =
      (if leU32 (ch.data.drop 8) ≠ bytesPerSecond (decodedFormat ch.data) then
        .err .inconsistentBPS
      else if leU16 (ch.data.drop 12) ≠ blockAlign (decodedFormat ch.data) then
        .err .inconsistentBA
      else
        match validateFormat (decodedFormat ch.data) with
        | some e => .err e
        | none => .ok (decodedFormat ch.data)) := by
    unfold formatFromChunk
    rw [if_neg (by simp [lengthFormatChunk]), if_neg (by simp [hid])]
    rw [parseFormatFields_len16 hlen]
    exact rfl
  refine ⟨?_, ?_, ?_⟩
  · intro hne
    rw [hbase, if_pos hne]
    exact ⟨rfl, rfl⟩
  · intro heq hne
    rw [hbase, if_neg (by simp [heq]), if_pos hne]
    exact ⟨rfl, rfl⟩
  · intro heq heq2
    rw [hbase, if_neg (by simp [heq]), if_neg (by simp [heq2])]
    rcases validateFormat_cases (decodedFormat ch.data) with hv | hv | hv | hv <;>
      rw [hv] <;> exact ⟨by simp, by simp, by simp⟩

/-- Witness for c7_format_cross_checks: a 16-byte format payload whose
stored byte-rate field 99 disagrees with the recomputed 176400 is rejected
with the Corrupted bytes-per-second error. -/
theorem c7_format_cross_checks_witness :
    formatFromChunk 24
      { identifier := fmtTag,
        data := [1, 0, 2, 0, 68, 172, 0, 0, 99, 0, 0, 0, 4, 0, 16, 0] } =
      .err .inconsistentBPS ∧
    Err.isCorrupted .inconsistentBPS = true :=
  (c7_format_cross_checks
    { identifier := fmtTag,
      data := [1, 0, 2, 0, 68, 172, 0, 0, 99, 0, 0, 0, 4, 0, 16, 0] }
    rfl rfl).1 (by decide)

end WaveClaims

section RoundTrip

/-- The exact bytes Writer.WriteChunk emits for one chunk: identifier,
little-endian uint32 payload length, padded payload. -/
def wireChunk (c : Chunk) : List Nat :=
  c.identifier ++ le32 (c.data.length % 2 ^ 32) ++ padList c.data

/-- Total on-wire length of a chunk sequence. -/
def sumWire (cs : List Chunk) : Nat := (cs.map chunkWireLen).sum

/-- The concatenated wire encoding of a chunk sequence. -/
def wireBytes (cs : List Chunk) : List Nat := (cs.map wireChunk).flatten

theorem internWrite_file (t : List Nat) (bs : List (List Nat)) :
    internWrite fileWrite t bs = (t ++ bs.flatten, bs.flatten.length, none) := by
  induction bs generalizing t with
  | nil => simp [internWrite]
  | cons b rest ih =>
    have hw : fileWrite t b = (t ++ b, b.length, none) := rfl
    unfold internWrite
    rw [hw]
    simp only
    rw [if_neg (by omega)]
    rw [ih (t ++ b)]
    simp [List.append_assoc]

theorem riffWNew_file (ft : List Nat) :
    riffWNew fileWrite [] ft =
      .ok { fileType := ft, fileSize := 4, closed := false,
            inner := riffTag ++ zeros 4 ++ ft } := by
  unfold riffWNew
  rw [internWrite_file]
  simp [List.append_assoc]

theorem writeChunk_file (w : WrState (List Nat)) (c : Chunk)
    (hcl : w.closed = false) (h0 : 0 ≤ w.fileSize)
    (hid : c.identifier.length = 4)
    (hbound : w.fileSize + (chunkWireLen c : Int) ≤ 4294967295) :
    writeChunk fileWrite w c =
      ({ w with
          inner := w.inner ++ wireChunk c,
          fileSize := w.fileSize + (chunkWireLen c : Int) }, chunkWireLen c, none) := by
  have hbound2 : w.fileSize + (8 + (paddedLenN c.data.length : Int)) ≤ 4294967295 := by
    unfold chunkWireLen at hbound
    push_cast at hbound
    omega
  have hnotov : ¬ overflowCond w c := by
    unfold overflowCond
    rw [newSize_exact h0 hbound2]
    omega
  have hn : ((chunkSlices c).flatten).length = chunkWireLen c := by
    simp [chunkSlices, chunkWireLen, hid, padList_length, le32_length]
    omega
  unfold writeChunk
  rw [if_neg (by rw [hcl]; simp), if_neg hnotov]
  rw [internWrite_file]
  simp only [hn]
  have hflat : (chunkSlices c).flatten = wireChunk c := by
    simp [chunkSlices, wireChunk, List.append_assoc]
  rw [hflat]

theorem writeAll_file (cs : List Chunk) (w : WrState (List Nat))
    (hcl : w.closed = false) (h0 : 0 ≤ w.fileSize)
    (hids : ∀ c ∈ cs, c.identifier.length = 4)
    (hbound : w.fileSize + (sumWire cs : Int) ≤ 4294967295) :
    writeAll fileWrite w cs =
      ({ w with
          inner := w.inner ++ wireBytes cs,
          fileSize := w.fileSize + (sumWire cs : Int) }, sumWire cs, none) := by
  induction cs generalizing w with
  | nil =>
    simp [writeAll, wireBytes, sumWire]
  | cons c rest ih =>
    have hsum : sumWire (c :: rest) = chunkWireLen c + sumWire rest := by
      simp [sumWire]
    have hb1 : w.fileSize + (chunkWireLen c : Int) ≤ 4294967295 := by
      rw [hsum] at hbound
      push_cast at hbound ⊢
      omega
    unfold writeAll
    rw [writeChunk_file w c hcl h0 (hids c (List.mem_cons_self c rest)) hb1]
    simp only
    rw [ih { w with
              inner := w.inner ++ wireChunk c,
              fileSize := w.fileSize + (chunkWireLen c : Int) }
      hcl (by push_cast; omega)
      (fun c1 hc1 => hids c1 (List.mem_cons_of_mem c hc1))
      (by simp only; rw [hsum] at hbound; push_cast at hbound ⊢; omega)]
    simp only [hsum, wireBytes, List.map_cons, List.flatten_cons]
    push_cast
    simp [List.append_assoc, add_assoc]

theorem closeW_file (w : WrState (List Nat)) (hcl : w.closed = false) :
    closeW fileWriteAt w =
      ({ w with
          closed := true,
          inner := w.inner.take 4 ++ le32 (u32cast w.fileSize) ++ w.inner.drop 8 }, none) := by
  unfold closeW fileWriteAt
  rw [if_neg (by rw [hcl]; simp)]
  simp only [le32_length]
  rw [if_neg (by omega)]
  rfl

theorem rread_buffer (r : RdState (List Nat)) {pre : List Nat} (post : List Nat)
    {len : Nat} (hin : r.inner = pre ++ post) (hlen : pre.length = len)
    (hb : r.bytesRead + (len : Int) ≤ (paddedLenN r.size : Int)) :
    rread bufferRead r len =
      ({ r with inner := post, bytesRead := r.bytesRead + (len : Int) }, pre, len, none) := by
  have h : bufferRead r.inner len = (post, pre, none) := by
    rw [hin]
    exact bufferRead_exact post hlen
  rw [rread_ok h (by rw [hlen]; exact hb)]
  rw [fill_of_length hlen, hlen]

theorem riffNew_buffer {S : Nat} {ft : List Nat} (body : List Nat) (hft : ft.length = 4)
    (hS4 : 4 ≤ S) (hS : S < 2 ^ 32) :
    riffNew bufferRead (riffTag ++ le32 S ++ ft ++ body) =
      .ok { fileType := ft, size := S, bytesRead := 4, inner := body } := by
  have e1 : bufferRead (riffTag ++ le32 S ++ ft ++ body) 4 =
      (le32 S ++ ft ++ body, riffTag, none) := by
    rw [show riffTag ++ le32 S ++ ft ++ body = riffTag ++ (le32 S ++ ft ++ body) by
      simp [List.append_assoc]]
    exact bufferRead_exact _ rfl
  have e2 : bufferRead (le32 S ++ ft ++ body) 4 = (ft ++ body, le32 S, none) := by
    rw [show le32 S ++ ft ++ body = le32 S ++ (ft ++ body) by simp [List.append_assoc]]
    exact bufferRead_exact _ (le32_length S)
  have e3 : bufferRead (ft ++ body) 4 = (body, ft, none) :=
    bufferRead_exact _ hft
  have h3 : read3 bufferRead (riffTag ++ le32 S ++ ft ++ body) =
      ⟨body, riffTag, le32 S, ft, 12, none⟩ := by
    unfold read3
    rw [e1]
    simp only
    rw [if_neg (by decide)]
    rw [e2]
    simp only
    rw [if_neg (by rw [le32_length]; omega)]
    rw [e3]
    simp only
    rw [if_neg (by rw [hft]; omega)]
    rw [fill_of_length (show riffTag.length = 4 from rfl),
      fill_of_length (le32_length S), fill_of_length hft]
    rw [le32_length, hft]
    simp [riffTag]
  unfold riffNew
  rw [h3]
  simp only
  rw [if_pos trivial, leU32_le32 hS, if_neg (by omega)]

theorem readChunk_buffer (r : RdState (List Nat)) (c c0 : Chunk) (rest : List Nat)
    (hin : r.inner = wireChunk c ++ rest) (hid : c.identifier.length = 4)
    (hlen : c.data.length < 2 ^ 32)
    (hb : r.bytesRead + (chunkWireLen c : Int) ≤ (paddedLenN r.size : Int)) :
    readChunk bufferRead r c0 =
      ({ r with
          inner := rest,
          bytesRead := r.bytesRead + (chunkWireLen c : Int) }, c, chunkWireLen c, none) := by
  have hwirele : (8 : Int) ≤ (chunkWireLen c : Int) := by
    unfold chunkWireLen
    push_cast
    omega
  have hhdr : r.inner =
      (c.identifier ++ le32 (c.data.length % 2 ^ 32)) ++ (padList c.data ++ rest) := by
    rw [hin]
    simp [wireChunk, List.append_assoc]
  have hhdrlen : (c.identifier ++ le32 (c.data.length % 2 ^ 32)).length = 8 := by
    simp [hid, le32_length]
  unfold readChunk
  rw [rread_buffer r (padList c.data ++ rest) hhdr hhdrlen (by push_cast; omega)]
  simp only
  rw [if_neg (by omega)]
  have hdrop : (c.identifier ++ le32 (c.data.length % 2 ^ 32)).drop 4 =
      le32 (c.data.length % 2 ^ 32) := by
    rw [show (4 : Nat) = c.identifier.length from hid.symm]
    exact List.drop_left c.identifier _
  rw [hdrop, leU32_le32 (Nat.mod_lt _ (by norm_num)), Nat.mod_eq_of_lt hlen]
  rw [rread_buffer
    { r with
        inner := padList c.data ++ rest,
        bytesRead := r.bytesRead + ((8 : Nat) : Int) }
    rest rfl (padList_length c.data)
    (by simp only; unfold chunkWireLen at hb; push_cast at hb ⊢; omega)]
  simp only
  rw [if_neg (by omega)]
  have htake2 : List.take 4 (c.identifier ++ le32 c.data.length) = c.identifier := by
    rw [show (4 : Nat) = c.identifier.length from hid.symm]
    exact List.take_left c.identifier _
  have hbytes : r.bytesRead + ((8 : Nat) : Int) + (paddedLenN c.data.length : Int) =
      r.bytesRead + (chunkWireLen c : Int) := by
    unfold chunkWireLen
    push_cast
    omega
  have htot : 8 + paddedLenN c.data.length = chunkWireLen c := rfl
  rw [htake2, padList_take, hbytes, htot]

theorem sumWire_even (cs : List Chunk) : sumWire cs % 2 = 0 := by
  induction cs with
  | nil => rfl
  | cons c rest ih =>
    have h := paddedLenN_even c.data.length
    have hc : sumWire (c :: rest) = chunkWireLen c + sumWire rest := by simp [sumWire]
    unfold chunkWireLen at hc
    omega

theorem readToEnd_buffer (cs : List Chunk) (r : RdState (List Nat))
    (hin : r.inner = wireBytes cs)
    (hids : ∀ c ∈ cs, c.identifier.length = 4)
    (hlens : ∀ c ∈ cs, c.data.length < 2 ^ 32)
    (hb : r.bytesRead + (sumWire cs : Int) ≤ (paddedLenN r.size : Int)) :
    readToEnd bufferRead (cs.length + 1) r =
      ({ r with inner := [], bytesRead := r.bytesRead + (sumWire cs : Int) }, cs, none) := by
  induction cs generalizing r with
  | nil =>
    have hinn : r.inner = [] := by simpa [wireBytes] using hin
    have h8 : bufferRead r.inner 8 = (r.inner, [], some .eofE) := by
      rw [hinn]
      rfl
    show readToEnd bufferRead 1 r = _
    unfold readToEnd readChunk
    rw [rread_err h8]
    simp only
    rw [if_pos trivial]
    simp [hinn, sumWire]
  | cons c rest ih =>
    have hin2 : r.inner = wireChunk c ++ wireBytes rest := by
      simpa [wireBytes] using hin
    have hsum : sumWire (c :: rest) = chunkWireLen c + sumWire rest := by
      simp [sumWire]
    have hb1 : r.bytesRead + (chunkWireLen c : Int) ≤ (paddedLenN r.size : Int) := by
      rw [hsum] at hb
      push_cast at hb
      omega
    show readToEnd bufferRead (rest.length + 1 + 1) r = _
    unfold readToEnd
    rw [readChunk_buffer r c { identifier := zeros 4, data := [] } (wireBytes rest) hin2
      (hids c (List.mem_cons_self c rest)) (hlens c (List.mem_cons_self c rest)) hb1]
    simp only
    rw [ih { r with
              inner := wireBytes rest,
              bytesRead := r.bytesRead + (chunkWireLen c : Int) }
      rfl
      (fun c1 hc1 => hids c1 (List.mem_cons_of_mem c hc1))
      (fun c1 hc1 => hlens c1 (List.mem_cons_of_mem c hc1))
      (by simp only; rw [hsum] at hb; push_cast at hb ⊢; omega)]
    simp only [hsum]
    push_cast
    simp [add_assoc]

/-- The end-to-end scenario of the round-trip claim: open a writer over an
empty in-memory file, write every chunk, close, then open a reader over
the produced bytes and read to the end; the first error (if any) aborts
the pipeline. -/
def pipeline (ft : List Nat) (cs : List Chunk) : List Chunk × Option Err :=
  match riffWNew fileWrite ([] : List Nat) ft with
  | .error e => ([], some e)
  | .ok w0 =>
    match writeAll fileWrite w0 cs with
    | (_, _, some e) => ([], some e)
    | (w1, _, none) =>
      match closeW fileWriteAt w1 with
      | (_, some e) => ([], some e)
      | (w2, none) =>
        match riffNew bufferRead w2.inner with
        | .error e => ([], some e)
        | .ok r0 =>
          match readToEnd bufferRead (cs.length + 1) r0 with
          | (_, cs1, e1) => (cs1, e1)

/-- Claim C3: for every 4-byte file type and every finite chunk sequence
with 4-byte identifiers whose total container size fits an unsigned
32-bit value, writing the sequence (open, WriteChunk for each chunk,
Close) and reading the produced bytes back with ReadToEnd yields exactly
the original chunks — identical identifiers and identical unpadded
payloads, in the same order — with no error anywhere in the pipeline. -/
theorem c3_roundtrip (ft : List Nat) (cs : List Chunk) (hft : ft.length = 4)
    (hids : ∀ c ∈ cs, c.identifier.length = 4)
    (htot : 4 + sumWire cs ≤ 4294967295) :
    pipeline ft cs = (cs, none) := by
  have hmemle : ∀ c ∈ cs, chunkWireLen c ≤ sumWire cs := by
    intro c hc
    exact List.single_le_sum (fun x _ => Nat.zero_le x) _
      (List.mem_map_of_mem chunkWireLen hc)
  have hlens : ∀ c ∈ cs, c.data.length < 2 ^ 32 := by
    intro c hc
    have h1 := hmemle c hc
    have h2 := paddedLenN_ge c.data.length
    unfold chunkWireLen at h1
    omega
  unfold pipeline
  rw [riffWNew_file]
  simp only
  rw [writeAll_file cs _ rfl (by norm_num) hids (by simp only; omega)]
  simp only
  rw [closeW_file _ rfl]
  simp only
  have hS : u32cast ((4 : Int) + (sumWire cs : Int)) = 4 + sumWire cs := by
    unfold u32cast
    omega
  have htake4 : ((riffTag ++ zeros 4 ++ ft ++ wireBytes cs).take 4) = riffTag := by
    rw [show riffTag ++ zeros 4 ++ ft ++ wireBytes cs =
      riffTag ++ (zeros 4 ++ ft ++ wireBytes cs) by simp [List.append_assoc]]
    exact List.take_left riffTag _
  have hdrop8 : ((riffTag ++ zeros 4 ++ ft ++ wireBytes cs).drop 8) = ft ++ wireBytes cs := by
    rw [show riffTag ++ zeros 4 ++ ft ++ wireBytes cs =
      (riffTag ++ zeros 4) ++ (ft ++ wireBytes cs) by simp [List.append_assoc]]
    exact List.drop_left (riffTag ++ zeros 4) _
  rw [htake4, hdrop8, hS]
  rw [show riffTag ++ le32 (4 + sumWire cs) ++ (ft ++ wireBytes cs) =
    riffTag ++ le32 (4 + sumWire cs) ++ ft ++ wireBytes cs by simp [List.append_assoc]]
  rw [riffNew_buffer (wireBytes cs) hft (by omega) (by omega)]
  simp only
  rw [readToEnd_buffer cs
    { fileType := ft, size := 4 + sumWire cs, bytesRead := 4, inner := wireBytes cs }
    rfl hids hlens
    (by simp only
        rw [paddedLenN_of_even (by have := sumWire_even cs; omega)]
        omega)]

/-- Witness for c3_roundtrip: a concrete pipeline with a 5-byte fmt chunk
and an 8-byte data chunk round-trips exactly. -/
theorem c3_roundtrip_witness :
    pipeline waveTag
      [{ identifier := fmtTag, data := [1, 2, 3, 4, 5] },
        { identifier := dataTag, data := [1, 2, 3, 4, 5, 6, 7, 8] }] =
      ([{ identifier := fmtTag, data := [1, 2, 3, 4, 5] },
        { identifier := dataTag, data := [1, 2, 3, 4, 5, 6, 7, 8] }], none) :=
  c3_roundtrip waveTag
    [{ identifier := fmtTag, data := [1, 2, 3, 4, 5] },
      { identifier := dataTag, data := [1, 2, 3, 4, 5, 6, 7, 8] }]
    rfl (by decide) (by decide)

end RoundTrip

end Goriffa
